import Mathlib

/-!
Verification of the WDBC reader / format-catalog core (`dbc_reader.py`,
`format_parser.py`) against its natural-language specification.

The embedding below translates the Python source directly:
* bytes are `Nat` (each in 0..255 in any real input),
* Python strings of decoded text are lists of Unicode code points (`List Nat`),
* Python dict records are association lists ordered by insertion
  (`List (Nat × Value)`), looked up with `List.lookup`,
* fallible reads (`struct.unpack_from`, which raises when the buffer is too
  short) return `Option`.
-/

namespace DbcQuery

abbrev Byte := Nat

/-- A decoded field value.  `uint` covers the `'i','n','d','l'` uint32 fields
and the `'b'` uint8 fields; `flt` holds the raw little-endian 32 bits read for
a `'f'` field (the IEEE-754 reinterpretation is irrelevant to every claim and
is kept as the bit pattern); `str` is decoded text as code points; `none` is
Python's `None`, stored for the padding fields `'x'`/`'X'` and also the result
of a failed dict lookup `record.get(idx)`. -/
inductive Value where
  | uint : Nat → Value
  | flt : Nat → Value
  | str : List Nat → Value
  | none : Value
deriving DecidableEq

/-- A decoded record: Python dict from field index to value, as an
insertion-ordered association list. -/
abbrev Record := List (Nat × Value)

/-- Python dict lookup `record.get(i)`, returning `None` when absent. -/
def recGet (r : Record) (i : Nat) : Value :=
  (r.lookup i).getD Value.none

/-- Little-endian uint32 read, `struct.unpack_from('<I', data, off)`, raising
(`Option.none`) when fewer than 4 bytes are available at `off`. -/
def readU32 (data : List Byte) (off : Nat) : Option Nat :=
  if off + 4 ≤ data.length then
    some (data.getD off 0 + 256 * data.getD (off + 1) 0 +
          65536 * data.getD (off + 2) 0 + 16777216 * data.getD (off + 3) 0)
  else Option.none

/-- Uint8 read, `struct.unpack_from('<B', data, off)`, raising (`Option.none`) when
no byte is available at `off`. -/
def readU8 (data : List Byte) (off : Nat) : Option Nat :=
  if off + 1 ≤ data.length then some (data.getD off 0) else Option.none

/-- The loop `while end < len(table) and table[end] != 0: end += 1` of
`WDBCReader._read_string`, with the iteration count bounded by a structural
fuel so that it evaluates by kernel reduction. -/
def findEndAux (table : List Byte) : Nat → Nat → Nat
  | 0, e => e
  | fuel + 1, e =>
    if e < table.length ∧ table.getD e 0 ≠ 0 then findEndAux table fuel (e + 1)
    else e

/-- Position of the null terminator (or end of buffer) at or after `off`. -/
def findEnd (table : List Byte) (off : Nat) : Nat :=
  findEndAux table (table.length - off) off

/-- UTF-8 continuation byte test. -/
def isCont (b : Nat) : Bool := 0x80 ≤ b && b < 0xC0

/-- Strict UTF-8 decoding (`bytes.decode('utf-8')`): rejects lone
continuation bytes, overlong encodings, surrogates and code points above
U+10FFFF; `Option.none` models the `UnicodeDecodeError`. -/
def utf8Decode : List Nat → Option (List Nat)
  | [] => some []
  | b :: rest =>
    if b < 0x80 then
      (utf8Decode rest).map fun s => b :: s
    else if b < 0xC2 then Option.none
    else if b < 0xE0 then
      match rest with
      | c1 :: rest2 =>
        if isCont c1 then
          (utf8Decode rest2).map fun s => ((b - 0xC0) * 0x40 + (c1 - 0x80)) :: s
        else Option.none
      | [] => Option.none
    else if b < 0xF0 then
      match rest with
      | c1 :: c2 :: rest3 =>
        if isCont c1 && isCont c2 && !(b == 0xE0 && c1 < 0xA0) &&
            !(b == 0xED && 0xA0 ≤ c1) then
          (utf8Decode rest3).map fun s =>
            ((b - 0xE0) * 0x1000 + (c1 - 0x80) * 0x40 + (c2 - 0x80)) :: s
        else Option.none
      | _ => Option.none
    else if b < 0xF5 then
      match rest with
      | c1 :: c2 :: c3 :: rest4 =>
        if isCont c1 && isCont c2 && isCont c3 && !(b == 0xF0 && c1 < 0x90) &&
            !(b == 0xF4 && 0x90 ≤ c1) then
          (utf8Decode rest4).map fun s =>
            ((b - 0xF0) * 0x40000 + (c1 - 0x80) * 0x1000 +
              (c2 - 0x80) * 0x40 + (c3 - 0x80)) :: s
        else Option.none
      | _ => Option.none
    else Option.none

/-- Latin-1 decoding, `bytes.decode('latin-1', errors='ignore')`: each byte becomes the code
point of the same number; latin-1 decoding never fails, so `errors='ignore'`
never drops anything. -/
def latin1Decode (bs : List Nat) : List Nat := bs.map fun b => b

/-- The method `WDBCReader._read_string`: out-of-range offsets give the empty string;
otherwise the bytes up to the null terminator are decoded as UTF-8, falling
back to latin-1 on failure. -/
def readString (table : List Byte) (off : Nat) : List Nat :=
  if table.length ≤ off then []
  else
    match utf8Decode ((table.drop off).take (findEnd table off - off)) with
    | some s => s
    | Option.none => latin1Decode ((table.drop off).take (findEnd table off - off))

/-- Byte width a format character contributes in
`FormatParser.get_record_size` (unrecognized characters contribute 0). -/
def widthOf (c : Char) : Nat :=
  if c = 'i' ∨ c = 'f' ∨ c = 's' ∨ c = 'n' ∨ c = 'd' ∨ c = 'l' ∨ c = 'x' then 4
  else if c = 'b' ∨ c = 'X' then 1
  else 0

/-- The method `FormatParser.get_record_size`: sum of the widths over the format
string. -/
def getRecordSize : List Char → Nat
  | [] => 0
  | c :: cs => widthOf c + getRecordSize cs

/-- Membership in the recognized format-character set
`{i, n, d, l, f, s, b, x, X}`. -/
def recognizedChar (c : Char) : Bool :=
  c == 'i' || c == 'n' || c == 'd' || c == 'l' || c == 'f' || c == 's' ||
    c == 'b' || c == 'x' || c == 'X'

/-- The loop body of `WDBCReader._parse_record`: walks the format string with
a running field index and byte cursor.  Unrecognized characters fall through
the `if/elif` chain: no entry is stored and the cursor does not advance. -/
def parseRecordAux (strTab data : List Byte) : List Char → Nat → Nat → Option Record
  | [], _, _ => some []
  | c :: cs, idx, off =>
    if c = 'i' ∨ c = 'n' ∨ c = 'd' ∨ c = 'l' then
      (readU32 data off).bind fun v =>
        (parseRecordAux strTab data cs (idx + 1) (off + 4)).map fun rest =>
          (idx, Value.uint v) :: rest
    else if c = 'f' then
      (readU32 data off).bind fun v =>
        (parseRecordAux strTab data cs (idx + 1) (off + 4)).map fun rest =>
          (idx, Value.flt v) :: rest
    else if c = 's' then
      (readU32 data off).bind fun so =>
        (parseRecordAux strTab data cs (idx + 1) (off + 4)).map fun rest =>
          (idx, Value.str (readString strTab so)) :: rest
    else if c = 'b' then
      (readU8 data off).bind fun v =>
        (parseRecordAux strTab data cs (idx + 1) (off + 1)).map fun rest =>
          (idx, Value.uint v) :: rest
    else if c = 'x' then
      (parseRecordAux strTab data cs (idx + 1) (off + 4)).map fun rest =>
        (idx, Value.none) :: rest
    else if c = 'X' then
      (parseRecordAux strTab data cs (idx + 1) (off + 1)).map fun rest =>
        (idx, Value.none) :: rest
    else
      parseRecordAux strTab data cs (idx + 1) off

/-- The method `WDBCReader._parse_record(offset)`, reading fields of `fmt` from `data`
starting at byte `off`, resolving string offsets against `strTab`. -/
def parseRecord (strTab data : List Byte) (fmt : List Char) (off : Nat) : Option Record :=
  parseRecordAux strTab data fmt 0 off

/-- The method `WDBCReader._parse_records`: one record per row at offsets
`0, rs, 2*rs, ...`; `Option.none` when any row raises a struct error. -/
def parseRecords (strTab data : List Byte) (rc rs : Nat) (fmt : List Char) :
    Option (List Record) :=
  (List.range rc).mapM fun i => parseRecord strTab data fmt (i * rs)

/-- Outcome of `WDBCReader.read()`: the Python method either returns `True`
with the reader populated (`ok`), returns `False` (short header), or raises
(`FileNotFoundError`, the two `ValueError`s, or `struct.error` while
parsing). -/
inductive ReadResult where
  | ok : List Record → List Byte → ReadResult
  | returnedFalse : ReadResult
  | fileNotFound : ReadResult
  | invalidSignature : ReadResult
  | fieldCountMismatch : ReadResult
  | structError : ReadResult
deriving DecidableEq

/-- Header field read; only used under the 20-byte-length guard, where it
always succeeds. -/
def hdrU32 (bytes : List Byte) (off : Nat) : Nat :=
  (readU32 bytes off).getD 0

/-- The ASCII bytes of the magic tag `b'WDBC'`. -/
def WDBC_SIGNATURE : List Byte := [87, 68, 66, 67]

/-- The method `WDBCReader.read()` on a file that is either absent (`Option.none`) or
holds `bytes`: existence check, 20-byte header read (`_read_header`, which
returns `False` on a short header and raises on a bad signature), field-count
validation (`_validate_format`), then the data section (`rc * rs` bytes), the
string table (`sbs` bytes — `f.read` simply returns fewer bytes when the file
is short) and the eager parse of every row. -/
def wdbcRead (file : Option (List Byte)) (fmt : List Char) : ReadResult :=
  match file with
  | Option.none => ReadResult.fileNotFound
  | some bytes =>
    if bytes.length < 20 then ReadResult.returnedFalse
    else if bytes.take 4 ≠ WDBC_SIGNATURE then ReadResult.invalidSignature
    else
      let rc := hdrU32 bytes 4
      let fc := hdrU32 bytes 8
      let rs := hdrU32 bytes 12
      let sbs := hdrU32 bytes 16
      if fmt.length ≠ fc then ReadResult.fieldCountMismatch
      else
        let rest := bytes.drop 20
        let data := rest.take (rc * rs)
        let strTab := (rest.drop (rc * rs)).take sbs
        match parseRecords strTab data rc rs fmt with
        | some recs => ReadResult.ok recs strTab
        | Option.none => ReadResult.structError

/-- The filter loop of `WDBCReader.query`: every `(field_idx, value)` pair
must satisfy `record.get(field_idx) == value`. -/
def matchesFilter (filt : List (Nat × Value)) (r : Record) : Bool :=
  filt.all fun p => recGet r p.1 == p.2

/-- Python truthiness of an optional dict/list argument: `None` and the empty
collection are falsy. -/
def truthy {α : Type} (o : Option (List α)) : Bool :=
  match o with
  | some (_ :: _) => true
  | _ => false

/-- The column-selection step of `WDBCReader.query`:
`{idx: record.get(idx) for idx in columns}` when `columns` is truthy,
otherwise the record unchanged. -/
def applyColumns (cols : Option (List Nat)) (r : Record) : Record :=
  if truthy cols then (cols.getD []).map fun i => (i, recGet r i) else r

/-- The method `WDBCReader.query(filter_dict, columns)` over the decoded records. -/
def query : List Record → Option (List (Nat × Value)) → Option (List Nat) → List Record
  | [], _, _ => []
  | r :: rest, filt, cols =>
    if truthy filt && !(matchesFilter (filt.getD []) r) then query rest filt cols
    else applyColumns cols r :: query rest filt cols

/-- The method `WDBCReader.get_record_by_id`: first record whose field 0 equals the
requested value. -/
def getRecordById (records : List Record) (idValue : Value) : Option Record :=
  records.find? fun r => recGet r 0 == idValue

/-- The catalog declaration suffix `"fmt"`. -/
def fmtSuffix : List Char := ['f', 'm', 't']

/-- The `"Entry"` suffix tried by `FormatParser.get_format`. -/
def entrySuffix : List Char := ['E', 'n', 't', 'r', 'y']

/-- The table `FormatParser.DBC_NAME_MAP`: the built-in override table from DBC file
name to catalog key. -/
def DBC_NAME_MAP : List (List Char × List Char) :=
  [ (['S','p','e','l','l'], ['S','p','e','l','l','E','n','t','r','y']),
    (['A','r','e','a','T','a','b','l','e'],
     ['A','r','e','a','T','a','b','l','e','E','n','t','r','y']),
    (['C','h','r','C','l','a','s','s','e','s'], ['C','h','r','C','l','a','s','s','e','s']),
    (['C','h','r','R','a','c','e','s'], ['C','h','r','R','a','c','e','s']),
    (['C','r','e','a','t','u','r','e','D','i','s','p','l','a','y','I','n','f','o'],
     ['C','r','e','a','t','u','r','e','D','i','s','p','l','a','y','I','n','f','o']),
    (['C','r','e','a','t','u','r','e','F','a','m','i','l','y'],
     ['C','r','e','a','t','u','r','e','F','a','m','i','l','y']),
    (['T','a','l','e','n','t'], ['T','a','l','e','n','t','E','n','t','r','y']),
    (['T','a','l','e','n','t','T','a','b'],
     ['T','a','l','e','n','t','T','a','b','E','n','t','r','y']) ]

/-- The method `FormatParser.get_format`: the fallback chain over the parsed catalog
`formats`.  Note the third rule: when the requested name ends in `"fmt"` the
method returns `self.formats.get(dbc_name[:-3])` directly — even when that
lookup misses — so the `"Entry"` and `"fmt"`-appending rules are skipped. -/
def getFormat (formats : List (List Char × List Char)) (name : List Char) :
    Option (List Char) :=
  let mapped := (DBC_NAME_MAP.lookup name).getD name
  match formats.lookup mapped with
  | some f => some f
  | Option.none =>
    match formats.lookup name with
    | some f => some f
    | Option.none =>
      if fmtSuffix.isSuffixOf name then formats.lookup (name.take (name.length - 3))
      else
        match formats.lookup (name ++ entrySuffix) with
        | some f => some f
        | Option.none => formats.lookup (name ++ fmtSuffix)

/-- Spec-side value of field `i` of a record, following the specification's
words for `RecordDecoder.decode`: the cursor sits at `base` plus the summed
widths of the preceding fields; a multi-byte primitive is read little-endian
at the cursor; a `StringRef` resolves the read offset through `read_string`;
a padding field stores the explicit empty/none value. -/
def specFieldValueAt (strTab row : List Byte) (fmt : List Char) (base i : Nat) :
    Option Value :=
  match fmt.get? i with
  | some c =>
    if c = 'i' ∨ c = 'n' ∨ c = 'd' ∨ c = 'l' then
      (readU32 row (base + getRecordSize (fmt.take i))).map Value.uint
    else if c = 'f' then
      (readU32 row (base + getRecordSize (fmt.take i))).map Value.flt
    else if c = 's' then
      (readU32 row (base + getRecordSize (fmt.take i))).map fun so =>
        Value.str (readString strTab so)
    else if c = 'b' then
      (readU8 row (base + getRecordSize (fmt.take i))).map Value.uint
    else if c = 'x' ∨ c = 'X' then some Value.none
    else Option.none
  | Option.none => Option.none

/-- Spec-side resolution chain, written from the amended description of
`resolve`: the override rule, then the exact rule, and then — when the name
ends in the catalog declaration suffix — the stripped-name lookup alone
(its miss is final), otherwise the `"Entry"`-appended rule followed by the
suffix-re-appended rule. -/
def specResolve (formats : List (List Char × List Char)) (name : List Char) :
    Option (List Char) :=
  (((DBC_NAME_MAP.lookup name).bind fun m => formats.lookup m).orElse fun _ =>
    (formats.lookup name).orElse fun _ =>
      if fmtSuffix.isSuffixOf name then formats.lookup (name.take (name.length - 3))
      else
        (formats.lookup (name ++ entrySuffix)).orElse fun _ =>
          formats.lookup (name ++ fmtSuffix))

/-- A 28-byte file: valid `WDBC` signature, `record_count = 1`,
`field_count = 1`, `record_size = 8`, `string_block_size = 0`, followed by one
8-byte row — the header's `record_size` (8) disagrees with the width sum of
the one-field format `"i"` (4). -/
def c1File : List Byte :=
  [87, 68, 66, 67, 1, 0, 0, 0, 1, 0, 0, 0, 8, 0, 0, 0, 0, 0, 0, 0] ++
    [42, 0, 0, 0, 0, 0, 0, 0]

/-- A 20-byte file whose header declares `field_count = 2`. -/
def badFcFile : List Byte :=
  [87, 68, 66, 67, 0, 0, 0, 0, 2, 0, 0, 0, 0, 0, 0, 0, 0, 0, 0, 0]

/-- A 20-byte file whose header declares `string_block_size = 5` although no
bytes follow the header. -/
def c3SbsFile : List Byte :=
  [87, 68, 66, 67, 0, 0, 0, 0, 0, 0, 0, 0, 0, 0, 0, 0, 5, 0, 0, 0]

/-- A 20-byte file whose header declares one 4-byte record although no bytes
follow the header. -/
def c3ShortFile : List Byte :=
  [87, 68, 66, 67, 1, 0, 0, 0, 1, 0, 0, 0, 4, 0, 0, 0, 0, 0, 0, 0]

/-- A one-entry catalog holding only the key `"BfmtEntry"`. -/
def c4Catalog : List (List Char × List Char) :=
  [(['B', 'f', 'm', 't', 'E', 'n', 't', 'r', 'y'], ['i'])]

/-- Format covering every recognized field kind once:
uint32, float, string-ref, uint8, 4-byte pad, 1-byte pad. -/
def c6Fmt : List Char := ['i', 'f', 's', 'b', 'x', 'X']

/-- One 18-byte row for `c6Fmt`. -/
def c6Row : List Byte :=
  [1, 0, 0, 0, 0, 0, 128, 63, 0, 0, 0, 0, 7, 9, 9, 9, 9, 5]

/-- A string table holding `"foo\0"`. -/
def c6Tab : List Byte := [102, 111, 111, 0]

/-! ### General helper lemmas -/

lemma take_length_takeWhile {α : Type} (p : α → Bool) (l : List α) :
    l.take (l.takeWhile p).length = l.takeWhile p := by
  induction l with
  | nil => rfl
  | cons a l ih =>
    by_cases h : p a
    · simp [List.takeWhile_cons, h, ih]
    · simp [List.takeWhile_cons, h]

lemma find_eq_head_filter {α : Type} (p : α → Bool) (l : List α) :
    l.find? p = (l.filter p).head? := by
  induction l with
  | nil => rfl
  | cons a l ih =>
    by_cases h : p a
    · rw [List.find?_cons_of_pos _ h, List.filter_cons_of_pos h]
      rfl
    · rw [List.find?_cons_of_neg _ h, List.filter_cons_of_neg h, ih]

lemma lookup_proj (r : Record) :
    ∀ (cols : List Nat) (i : Nat), i ∈ cols →
      (cols.map fun j => (j, recGet r j)).lookup i = some (recGet r i) := by
  intro cols
  induction cols with
  | nil => intro i hi; cases hi
  | cons c cs ih =>
    intro i hi
    by_cases hic : i = c
    · subst hic; simp [List.lookup]
    · have hmem : i ∈ cs := by
        rcases List.mem_cons.mp hi with h | h
        · exact absurd h hic
        · exact h
      have hbeq : (i == c) = false := by simp [hic]
      simp [List.lookup, hbeq, ih i hmem]

/-! ### The loop of `_read_string` computes the span up to the null byte -/

lemma findEndAux_eq (table : List Byte) :
    ∀ (fuel e : Nat), table.length - e ≤ fuel →
      findEndAux table fuel e = e + ((table.drop e).takeWhile fun b => b != 0).length := by
  intro fuel
  induction fuel with
  | zero =>
    intro e he
    have hle : table.length ≤ e := by omega
    have h0 : findEndAux table 0 e = e := rfl
    rw [h0, List.drop_eq_nil_of_le hle]
    rfl
  | succ fuel ih =>
    intro e he
    have hstep : findEndAux table (fuel + 1) e =
        if e < table.length ∧ table.getD e 0 ≠ 0 then findEndAux table fuel (e + 1)
        else e := rfl
    by_cases hc : e < table.length ∧ table.getD e 0 ≠ 0
    · have hlt : e < table.length := hc.1
      have hdrop : table.drop e = table[e] :: table.drop (e + 1) :=
        List.drop_eq_getElem_cons hlt
      have hget : table.getD e 0 = table[e] := by
        rw [List.getD_eq_getElem?_getD, List.getElem?_eq_getElem hlt]
        rfl
      have hne : (fun b : Byte => b != 0) table[e] = true := by
        show (table[e] != 0) = true
        rw [← hget]
        simpa using hc.2
      have ihe := ih (e + 1) (by omega)
      rw [hstep, if_pos hc, ihe, hdrop, List.takeWhile_cons]
      have hbne : (table[e] != 0) = true := hne
      rw [hbne]
      simp only [if_true, List.length_cons]
      omega
    · rw [hstep, if_neg hc]
      by_cases hlt : e < table.length
      · have hz : table.getD e 0 = 0 := by
          by_contra hnz
          exact hc ⟨hlt, hnz⟩
        have hdrop : table.drop e = table[e] :: table.drop (e + 1) :=
          List.drop_eq_getElem_cons hlt
        have hget : table.getD e 0 = table[e] := by
          rw [List.getD_eq_getElem?_getD, List.getElem?_eq_getElem hlt]
          rfl
        have hz' : (table[e] != 0) = false := by
          rw [← hget, hz]
          rfl
        rw [hdrop, List.takeWhile_cons, hz']
        simp
      · have hle : table.length ≤ e := by omega
        rw [List.drop_eq_nil_of_le hle]
        rfl

lemma span_eq_takeWhile (table : List Byte) (off : Nat) :
    (table.drop off).take (findEnd table off - off) =
      (table.drop off).takeWhile fun b => b != 0 := by
  have h := findEndAux_eq table (table.length - off) off (Nat.le_refl _)
  unfold findEnd
  rw [h, Nat.add_sub_cancel_left]
  exact take_length_takeWhile _ _

/-- C5: for every string table and offset, `read_string(offset)` returns the
empty string when `offset >= len(table)`, and otherwise returns the decoding
of exactly the bytes from `offset` up to (excluding) the next zero byte or
the end of the buffer — decoded as UTF-8, and on a decode failure through the
byte-preserving single-byte (latin-1) fallback, which returns the span's
bytes themselves as code points, so no byte sequence produces a terminal
error. -/
theorem c5_read_string_exact (table : List Byte) (off : Nat) :
    readString table off =
      if table.length ≤ off then []
      else
        match utf8Decode ((table.drop off).takeWhile fun b => b != 0) with
        | some s => s
        | Option.none => (table.drop off).takeWhile fun b => b != 0 := by
  unfold readString
  by_cases h : table.length ≤ off
  · rw [if_pos h, if_pos h]
  · rw [if_neg h, if_neg h, span_eq_takeWhile]
    cases utf8Decode ((table.drop off).takeWhile fun b => b != 0) with
    | none => simp [latin1Decode]
    | some s => rfl

/-- C9: `query({}, None)` — an empty filter dict and no column selection —
returns the full decoded record sequence in original row order. -/
theorem c9_query_empty_filter (records : List Record) :
    query records (some []) Option.none = records := by
  induction records with
  | nil => rfl
  | cons r rest ih =>
    show query (r :: rest) (some []) Option.none = r :: rest
    rw [query]
    simp only [truthy, Bool.false_and, if_neg (Bool.false_ne_true), ih]
    rfl

/-- C7: `query({0: X}, None)` returns exactly the subsequence of records
whose field 0 equals `X`, in original row order, and `get_record_by_id(X)`
returns the first element of that subsequence (or `None` when it is empty):
the linear scan's first match is the head of the filtered subsequence. -/
theorem c7_query_vs_record_by_key (records : List Record) (x : Value) :
    query records (some [(0, x)]) Option.none =
        records.filter (fun r => recGet r 0 == x) ∧
      getRecordById records x = (records.filter fun r => recGet r 0 == x).head? := by
  constructor
  · induction records with
    | nil => rfl
    | cons r rest ih =>
      rw [query, List.filter_cons]
      by_cases hp : (recGet r 0 == x) = true
      · simp [truthy, matchesFilter, applyColumns, hp, ih]
      · simp [truthy, matchesFilter, applyColumns, hp, ih]
  · rw [getRecordById, find_eq_head_filter]

/-- C4 counterexample: with a catalog holding only the key `"BfmtEntry"`,
resolving `"Bfmt"` returns `None` even though the Entry-suffix rule (rule 4)
matches a catalog key: because `"Bfmt"` ends in `"fmt"`, `get_format` returns
the result of the stripped-name lookup directly and never evaluates rules 4
and 5, so NotFound is returned before every rule has failed. -/
theorem c4_counterexample :
    getFormat c4Catalog ['B', 'f', 'm', 't'] = Option.none ∧
      c4Catalog.lookup (['B', 'f', 'm', 't'] ++ entrySuffix) = some ['i'] := by
  decide

/-- C4 amended: `resolve` evaluates the fallback rules in order — override
table, exact match, then, when the requested name ends in the catalog
declaration suffix `"fmt"`, the stripped-name lookup whose result (even a
miss) is returned directly with the Entry-suffix and suffix-re-appended rules
never tried; only names not ending in `"fmt"` fall through to rules 4 and 5,
and NotFound is returned only after the rules actually evaluated have
failed.  Stated as: `get_format` coincides with the spec-side chain
`specResolve` written from this amended description. -/
theorem c4_resolution_chain (formats : List (List Char × List Char))
    (name : List Char) : getFormat formats name = specResolve formats name := by
  unfold getFormat specResolve
  cases hm : DBC_NAME_MAP.lookup name with
  | none =>
    simp only [hm, Option.getD, Option.bind]
    cases hf : formats.lookup name with
    | some f => simp [Option.orElse]
    | none =>
      simp only [Option.orElse]
      by_cases hs : fmtSuffix.isSuffixOf name
      · simp [hs]
      · simp only [hs, if_false, Bool.false_eq_true]
        cases he : formats.lookup (name ++ entrySuffix) with
        | some f => simp [Option.orElse]
        | none => simp [Option.orElse]
  | some m =>
    simp only [hm, Option.getD, Option.bind]
    cases hfm : formats.lookup m with
    | some f => simp [Option.orElse]
    | none =>
      simp only [Option.orElse]
      cases hf : formats.lookup name with
      | some f => simp [Option.orElse]
      | none =>
        simp only [Option.orElse]
        by_cases hs : fmtSuffix.isSuffixOf name
        · simp [hs]
        · simp only [hs, if_false, Bool.false_eq_true]
          cases he : formats.lookup (name ++ entrySuffix) with
          | some f => simp [Option.orElse]
          | none => simp [Option.orElse]

/-- C8 counterexample: with the empty projection list, `query` does not
reduce each record to the (empty) requested index set — Python's
`if columns:` is falsy on `[]`, so the full record is returned unreduced and
still holds field index 0. -/
theorem c8_counterexample :
    query [[(0, Value.uint 1)]] Option.none (some []) = [[(0, Value.uint 1)]] ∧
      ([(0, Value.uint 1)] : Record).lookup 0 = some (Value.uint 1) := by
  decide

/-- C8 amended: for every NONEMPTY projection list, each record returned by
`query` is reduced to exactly the requested field indices, in projection
order, and a requested index absent from the source record appears as the
absent value (`None`) rather than being omitted; the empty projection list is
treated like no projection at all and leaves records unreduced. -/
theorem c8_projection (records : List Record) (cols : List Nat)
    (h : cols ≠ []) :
    query records Option.none (some cols) =
        records.map (fun r => cols.map fun i => (i, recGet r i)) ∧
      ∀ (r : Record) (i : Nat), i ∈ cols →
        (cols.map fun j => (j, recGet r j)).lookup i = some (recGet r i) := by
  constructor
  · obtain ⟨c, cs, rfl⟩ : ∃ c cs, cols = c :: cs := by
      cases cols with
      | nil => exact absurd rfl h
      | cons c cs => exact ⟨c, cs, rfl⟩
    induction records with
    | nil => rfl
    | cons r rest ih =>
      rw [query]
      simp only [truthy, Bool.false_and, if_neg (Bool.false_ne_true), ih]
      rw [List.map_cons]
      rfl
  · intro r i hi
    exact lookup_proj r cols i hi

/-- C8 witness: projecting a record onto the single absent index 5 yields a
record defined exactly at index 5 with the absent value. -/
theorem c8_projection_witness :
    query [[(0, Value.uint 1)]] Option.none (some [5]) = [[(5, Value.none)]] := by
  have hq := (c8_projection [[(0, Value.uint 1)]] [5] (by decide)).1
  exact hq.trans (by decide)

/-! ### Unfolding lemmas for `_parse_record`, one per format character -/

lemma parseAux_i (st d : List Byte) (cs : List Char) (idx off : Nat) :
    parseRecordAux st d ('i' :: cs) idx off =
      (readU32 d off).bind fun v =>
        (parseRecordAux st d cs (idx + 1) (off + 4)).map fun rest =>
          (idx, Value.uint v) :: rest := rfl

lemma parseAux_n (st d : List Byte) (cs : List Char) (idx off : Nat) :
    parseRecordAux st d ('n' :: cs) idx off =
      (readU32 d off).bind fun v =>
        (parseRecordAux st d cs (idx + 1) (off + 4)).map fun rest =>
          (idx, Value.uint v) :: rest := rfl

lemma parseAux_d (st d : List Byte) (cs : List Char) (idx off : Nat) :
    parseRecordAux st d ('d' :: cs) idx off =
      (readU32 d off).bind fun v =>
        (parseRecordAux st d cs (idx + 1) (off + 4)).map fun rest =>
          (idx, Value.uint v) :: rest := rfl

lemma parseAux_l (st d : List Byte) (cs : List Char) (idx off : Nat) :
    parseRecordAux st d ('l' :: cs) idx off =
      (readU32 d off).bind fun v =>
        (parseRecordAux st d cs (idx + 1) (off + 4)).map fun rest =>
          (idx, Value.uint v) :: rest := rfl

lemma parseAux_f (st d : List Byte) (cs : List Char) (idx off : Nat) :
    parseRecordAux st d ('f' :: cs) idx off =
      (readU32 d off).bind fun v =>
        (parseRecordAux st d cs (idx + 1) (off + 4)).map fun rest =>
          (idx, Value.flt v) :: rest := rfl

lemma parseAux_s (st d : List Byte) (cs : List Char) (idx off : Nat) :
    parseRecordAux st d ('s' :: cs) idx off =
      (readU32 d off).bind fun so =>
        (parseRecordAux st d cs (idx + 1) (off + 4)).map fun rest =>
          (idx, Value.str (readString st so)) :: rest := rfl

lemma parseAux_b (st d : List Byte) (cs : List Char) (idx off : Nat) :
    parseRecordAux st d ('b' :: cs) idx off =
      (readU8 d off).bind fun v =>
        (parseRecordAux st d cs (idx + 1) (off + 1)).map fun rest =>
          (idx, Value.uint v) :: rest := rfl

lemma parseAux_x (st d : List Byte) (cs : List Char) (idx off : Nat) :
    parseRecordAux st d ('x' :: cs) idx off =
      (parseRecordAux st d cs (idx + 1) (off + 4)).map fun rest =>
        (idx, Value.none) :: rest := rfl

lemma parseAux_X (st d : List Byte) (cs : List Char) (idx off : Nat) :
    parseRecordAux st d ('X' :: cs) idx off =
      (parseRecordAux st d cs (idx + 1) (off + 1)).map fun rest =>
        (idx, Value.none) :: rest := rfl

lemma recognizedChar_cases {c : Char} (h : recognizedChar c = true) :
    c = 'i' ∨ c = 'n' ∨ c = 'd' ∨ c = 'l' ∨ c = 'f' ∨ c = 's' ∨ c = 'b' ∨
      c = 'x' ∨ c = 'X' := by
  simp [recognizedChar] at h
  tauto

lemma parseAux_skip (st d : List Byte) {c : Char} (cs : List Char)
    (idx off : Nat) (h : recognizedChar c = false) :
    parseRecordAux st d (c :: cs) idx off = parseRecordAux st d cs (idx + 1) off := by
  have h1 : ¬(c = 'i') := by rintro rfl; simp [recognizedChar] at h
  have h2 : ¬(c = 'n') := by rintro rfl; simp [recognizedChar] at h
  have h3 : ¬(c = 'd') := by rintro rfl; simp [recognizedChar] at h
  have h4 : ¬(c = 'l') := by rintro rfl; simp [recognizedChar] at h
  have h5 : ¬(c = 'f') := by rintro rfl; simp [recognizedChar] at h
  have h6 : ¬(c = 's') := by rintro rfl; simp [recognizedChar] at h
  have h7 : ¬(c = 'b') := by rintro rfl; simp [recognizedChar] at h
  have h8 : ¬(c = 'x') := by rintro rfl; simp [recognizedChar] at h
  have h9 : ¬(c = 'X') := by rintro rfl; simp [recognizedChar] at h
  show (if c = 'i' ∨ c = 'n' ∨ c = 'd' ∨ c = 'l' then
      (readU32 d off).bind fun v =>
        (parseRecordAux st d cs (idx + 1) (off + 4)).map fun rest =>
          (idx, Value.uint v) :: rest
    else if c = 'f' then
      (readU32 d off).bind fun v =>
        (parseRecordAux st d cs (idx + 1) (off + 4)).map fun rest =>
          (idx, Value.flt v) :: rest
    else if c = 's' then
      (readU32 d off).bind fun so =>
        (parseRecordAux st d cs (idx + 1) (off + 4)).map fun rest =>
          (idx, Value.str (readString st so)) :: rest
    else if c = 'b' then
      (readU8 d off).bind fun v =>
        (parseRecordAux st d cs (idx + 1) (off + 1)).map fun rest =>
          (idx, Value.uint v) :: rest
    else if c = 'x' then
      (parseRecordAux st d cs (idx + 1) (off + 4)).map fun rest =>
        (idx, Value.none) :: rest
    else if c = 'X' then
      (parseRecordAux st d cs (idx + 1) (off + 1)).map fun rest =>
        (idx, Value.none) :: rest
    else parseRecordAux st d cs (idx + 1) off) = parseRecordAux st d cs (idx + 1) off
  rw [if_neg (by tauto), if_neg h5, if_neg h6, if_neg h7, if_neg h8, if_neg h9]

/-! ### Record-lookup helpers -/

lemma lookup_cons_self {idx : Nat} {V : Value} {r : Record} :
    ((idx, V) :: r).lookup idx = some V := by
  simp [List.lookup]

lemma lookup_cons_ne {k idx : Nat} {V : Value} {r : Record} (h : k ≠ idx) :
    ((idx, V) :: r).lookup k = r.lookup k := by
  have hb : (k == idx) = false := by simp [h]
  simp [List.lookup, hb]

/-! ### Soundness of `_parse_record` against the spec-side field values -/

lemma specFieldValueAt_cons (st d : List Byte) (c : Char) (cs : List Char)
    (base j : Nat) :
    specFieldValueAt st d (c :: cs) base (j + 1) =
      specFieldValueAt st d cs (base + widthOf c) j := by
  simp only [specFieldValueAt, List.get?_cons_succ, List.take_succ_cons,
    getRecordSize, ← Nat.add_assoc]

lemma sound_step {strTab data : List Byte} {c : Char} {cs : List Char}
    {idx off w : Nat} {V : Value} {rec' : Record}
    (hw : widthOf c = w)
    (hparse : parseRecordAux strTab data (c :: cs) idx off = some ((idx, V) :: rec'))
    (hhead : specFieldValueAt strTab data (c :: cs) off 0 = some V)
    (htail : ∀ j, j < cs.length →
      rec'.lookup (idx + 1 + j) = specFieldValueAt strTab data cs (off + w) j ∧
        (specFieldValueAt strTab data cs (off + w) j).isSome) :
    ∃ rec, parseRecordAux strTab data (c :: cs) idx off = some rec ∧
      ∀ j, j < (c :: cs).length →
        rec.lookup (idx + j) = specFieldValueAt strTab data (c :: cs) off j ∧
          (specFieldValueAt strTab data (c :: cs) off j).isSome := by
  refine ⟨(idx, V) :: rec', hparse, ?_⟩
  intro j hj
  match j with
  | 0 =>
    refine ⟨?_, ?_⟩
    · rw [Nat.add_zero, lookup_cons_self, hhead]
    · rw [hhead]
      rfl
  | j' + 1 =>
    have hj' : j' < cs.length := by simpa using hj
    have hne : idx + (j' + 1) ≠ idx := by omega
    have hidx : idx + (j' + 1) = idx + 1 + j' := by omega
    refine ⟨?_, ?_⟩
    · rw [lookup_cons_ne hne, hidx, specFieldValueAt_cons, hw]
      exact (htail j' hj').1
    · rw [specFieldValueAt_cons, hw]
      exact (htail j' hj').2

lemma parseRecordAux_sound (strTab data : List Byte) :
    ∀ (fmt : List Char) (idx off : Nat),
      (∀ c ∈ fmt, recognizedChar c = true) →
      off + getRecordSize fmt ≤ data.length →
      ∃ rec, parseRecordAux strTab data fmt idx off = some rec ∧
        ∀ j, j < fmt.length →
          rec.lookup (idx + j) = specFieldValueAt strTab data fmt off j ∧
            (specFieldValueAt strTab data fmt off j).isSome := by
  intro fmt
  induction fmt with
  | nil =>
    intro idx off _ _
    exact ⟨[], rfl, fun j hj => absurd hj (by simp)⟩
  | cons c cs ih =>
    intro idx off hwf hlen
    have hc := hwf c (List.mem_cons_self c cs)
    have hwfcs : ∀ c' ∈ cs, recognizedChar c' = true := fun c' hc' =>
      hwf c' (List.mem_cons_of_mem c hc')
    rcases recognizedChar_cases hc with rfl | rfl | rfl | rfl | rfl | rfl | rfl | rfl | rfl
    · have hsz : getRecordSize ('i' :: cs) = 4 + getRecordSize cs := rfl
      rw [hsz] at hlen
      have h4 : off + 4 ≤ data.length := by omega
      obtain ⟨v, hv⟩ : ∃ v, readU32 data off = some v :=
        ⟨_, by unfold readU32; rw [if_pos h4]⟩
      obtain ⟨rec', hrec', hspec'⟩ := ih (idx + 1) (off + 4) hwfcs (by omega)
      refine sound_step (w := 4) (V := Value.uint v) rfl ?_ ?_ hspec'
      · rw [parseAux_i, hv, hrec']
        rfl
      · simp [specFieldValueAt, getRecordSize, hv]
    · have hsz : getRecordSize ('n' :: cs) = 4 + getRecordSize cs := rfl
      rw [hsz] at hlen
      have h4 : off + 4 ≤ data.length := by omega
      obtain ⟨v, hv⟩ : ∃ v, readU32 data off = some v :=
        ⟨_, by unfold readU32; rw [if_pos h4]⟩
      obtain ⟨rec', hrec', hspec'⟩ := ih (idx + 1) (off + 4) hwfcs (by omega)
      refine sound_step (w := 4) (V := Value.uint v) rfl ?_ ?_ hspec'
      · rw [parseAux_n, hv, hrec']
        rfl
      · simp [specFieldValueAt, getRecordSize, hv]
    · have hsz : getRecordSize ('d' :: cs) = 4 + getRecordSize cs := rfl
      rw [hsz] at hlen
      have h4 : off + 4 ≤ data.length := by omega
      obtain ⟨v, hv⟩ : ∃ v, readU32 data off = some v :=
        ⟨_, by unfold readU32; rw [if_pos h4]⟩
      obtain ⟨rec', hrec', hspec'⟩ := ih (idx + 1) (off + 4) hwfcs (by omega)
      refine sound_step (w := 4) (V := Value.uint v) rfl ?_ ?_ hspec'
      · rw [parseAux_d, hv, hrec']
        rfl
      · simp [specFieldValueAt, getRecordSize, hv]
    · have hsz : getRecordSize ('l' :: cs) = 4 + getRecordSize cs := rfl
      rw [hsz] at hlen
      have h4 : off + 4 ≤ data.length := by omega
      obtain ⟨v, hv⟩ : ∃ v, readU32 data off = some v :=
        ⟨_, by unfold readU32; rw [if_pos h4]⟩
      obtain ⟨rec', hrec', hspec'⟩ := ih (idx + 1) (off + 4) hwfcs (by omega)
      refine sound_step (w := 4) (V := Value.uint v) rfl ?_ ?_ hspec'
      · rw [parseAux_l, hv, hrec']
        rfl
      · simp [specFieldValueAt, getRecordSize, hv]
    · have hsz : getRecordSize ('f' :: cs) = 4 + getRecordSize cs := rfl
      rw [hsz] at hlen
      have h4 : off + 4 ≤ data.length := by omega
      obtain ⟨v, hv⟩ : ∃ v, readU32 data off = some v :=
        ⟨_, by unfold readU32; rw [if_pos h4]⟩
      obtain ⟨rec', hrec', hspec'⟩ := ih (idx + 1) (off + 4) hwfcs (by omega)
      refine sound_step (w := 4) (V := Value.flt v) rfl ?_ ?_ hspec'
      · rw [parseAux_f, hv, hrec']
        rfl
      · simp [specFieldValueAt, getRecordSize, hv]
    · have hsz : getRecordSize ('s' :: cs) = 4 + getRecordSize cs := rfl
      rw [hsz] at hlen
      have h4 : off + 4 ≤ data.length := by omega
      obtain ⟨so, hso⟩ : ∃ so, readU32 data off = some so :=
        ⟨_, by unfold readU32; rw [if_pos h4]⟩
      obtain ⟨rec', hrec', hspec'⟩ := ih (idx + 1) (off + 4) hwfcs (by omega)
      refine sound_step (w := 4) (V := Value.str (readString strTab so)) rfl ?_ ?_ hspec'
      · rw [parseAux_s, hso, hrec']
        rfl
      · simp [specFieldValueAt, getRecordSize, hso]
    · have hsz : getRecordSize ('b' :: cs) = 1 + getRecordSize cs := rfl
      rw [hsz] at hlen
      have h1 : off + 1 ≤ data.length := by omega
      obtain ⟨v, hv⟩ : ∃ v, readU8 data off = some v :=
        ⟨_, by unfold readU8; rw [if_pos h1]⟩
      obtain ⟨rec', hrec', hspec'⟩ := ih (idx + 1) (off + 1) hwfcs (by omega)
      refine sound_step (w := 1) (V := Value.uint v) rfl ?_ ?_ hspec'
      · rw [parseAux_b, hv, hrec']
        rfl
      · simp [specFieldValueAt, getRecordSize, hv]
    · have hsz : getRecordSize ('x' :: cs) = 4 + getRecordSize cs := rfl
      rw [hsz] at hlen
      obtain ⟨rec', hrec', hspec'⟩ := ih (idx + 1) (off + 4) hwfcs (by omega)
      refine sound_step (w := 4) (V := Value.none) rfl ?_ ?_ hspec'
      · rw [parseAux_x, hrec']
        rfl
      · simp [specFieldValueAt, getRecordSize]
    · have hsz : getRecordSize ('X' :: cs) = 1 + getRecordSize cs := rfl
      rw [hsz] at hlen
      obtain ⟨rec', hrec', hspec'⟩ := ih (idx + 1) (off + 1) hwfcs (by omega)
      refine sound_step (w := 1) (V := Value.none) rfl ?_ ?_ hspec'
      · rw [parseAux_X, hrec']
        rfl
      · simp [specFieldValueAt, getRecordSize]

/-- C6: for every well-formed specification (all characters recognized) and
every row of exactly `record_size` bytes, `_parse_record` never fails, walks
the specification in order with a byte cursor starting at 0 — each field is
read at the cursor equal to the summed widths of the preceding fields,
little-endian, string offsets resolved through `read_string`, padding fields
stored as the explicit `None` — and the resulting record is defined at every
field index `0 .. field_count - 1`. -/
theorem c6_decode_total (strTab row : List Byte) (fmt : List Char)
    (hwf : ∀ c ∈ fmt, recognizedChar c = true)
    (hlen : row.length = getRecordSize fmt) :
    ∃ rec, parseRecord strTab row fmt 0 = some rec ∧
      ∀ i, i < fmt.length →
        rec.lookup i = specFieldValueAt strTab row fmt 0 i ∧
          (specFieldValueAt strTab row fmt 0 i).isSome := by
  obtain ⟨rec, hp, hs⟩ := parseRecordAux_sound strTab row fmt 0 0 hwf (by omega)
  refine ⟨rec, hp, fun i hi => ?_⟩
  have h := hs i hi
  rwa [Nat.zero_add] at h

/-- C6 witness: the concrete six-field format covering every recognized field
kind, on a concrete 18-byte row and the string table `"foo\0"`. -/
theorem c6_decode_total_witness :
    ∃ rec, parseRecord c6Tab c6Row c6Fmt 0 = some rec ∧
      ∀ i, i < c6Fmt.length →
        rec.lookup i = specFieldValueAt c6Tab c6Row c6Fmt 0 i ∧
          (specFieldValueAt c6Tab c6Row c6Fmt 0 i).isSome :=
  c6_decode_total c6Tab c6Row c6Fmt (by decide) (by decide)

/-! ### Structure of records produced by `_parse_record` -/

lemma parseAux_cons_shape {strTab data : List Byte} {c : Char} {cs : List Char}
    {idx off : Nat} {rec : Record}
    (h : parseRecordAux strTab data (c :: cs) idx off = some rec) :
    (∃ V rec' off', rec = (idx, V) :: rec' ∧
        parseRecordAux strTab data cs (idx + 1) off' = some rec') ∨
      parseRecordAux strTab data cs (idx + 1) off = some rec := by
  by_cases hc : recognizedChar c = true
  · left
    rcases recognizedChar_cases hc with rfl | rfl | rfl | rfl | rfl | rfl | rfl | rfl | rfl
    · rw [parseAux_i] at h
      obtain ⟨v, hv, h2⟩ := Option.bind_eq_some.mp h
      obtain ⟨rec', hr, h3⟩ := Option.map_eq_some'.mp h2
      exact ⟨Value.uint v, rec', off + 4, h3.symm, hr⟩
    · rw [parseAux_n] at h
      obtain ⟨v, hv, h2⟩ := Option.bind_eq_some.mp h
      obtain ⟨rec', hr, h3⟩ := Option.map_eq_some'.mp h2
      exact ⟨Value.uint v, rec', off + 4, h3.symm, hr⟩
    · rw [parseAux_d] at h
      obtain ⟨v, hv, h2⟩ := Option.bind_eq_some.mp h
      obtain ⟨rec', hr, h3⟩ := Option.map_eq_some'.mp h2
      exact ⟨Value.uint v, rec', off + 4, h3.symm, hr⟩
    · rw [parseAux_l] at h
      obtain ⟨v, hv, h2⟩ := Option.bind_eq_some.mp h
      obtain ⟨rec', hr, h3⟩ := Option.map_eq_some'.mp h2
      exact ⟨Value.uint v, rec', off + 4, h3.symm, hr⟩
    · rw [parseAux_f] at h
      obtain ⟨v, hv, h2⟩ := Option.bind_eq_some.mp h
      obtain ⟨rec', hr, h3⟩ := Option.map_eq_some'.mp h2
      exact ⟨Value.flt v, rec', off + 4, h3.symm, hr⟩
    · rw [parseAux_s] at h
      obtain ⟨so, hso, h2⟩ := Option.bind_eq_some.mp h
      obtain ⟨rec', hr, h3⟩ := Option.map_eq_some'.mp h2
      exact ⟨Value.str (readString strTab so), rec', off + 4, h3.symm, hr⟩
    · rw [parseAux_b] at h
      obtain ⟨v, hv, h2⟩ := Option.bind_eq_some.mp h
      obtain ⟨rec', hr, h3⟩ := Option.map_eq_some'.mp h2
      exact ⟨Value.uint v, rec', off + 1, h3.symm, hr⟩
    · rw [parseAux_x] at h
      obtain ⟨rec', hr, h3⟩ := Option.map_eq_some'.mp h
      exact ⟨Value.none, rec', off + 4, h3.symm, hr⟩
    · rw [parseAux_X] at h
      obtain ⟨rec', hr, h3⟩ := Option.map_eq_some'.mp h
      exact ⟨Value.none, rec', off + 1, h3.symm, hr⟩
  · right
    have hcf : recognizedChar c = false := by simpa using hc
    rwa [parseAux_skip strTab data cs idx off hcf] at h

lemma parseAux_lookup_none (strTab data : List Byte) :
    ∀ (fmt : List Char) (idx off : Nat) (rec : Record),
      parseRecordAux strTab data fmt idx off = some rec →
      ∀ k, idx + fmt.length ≤ k → rec.lookup k = Option.none := by
  intro fmt
  induction fmt with
  | nil =>
    intro idx off rec h k hk
    have hrec : rec = [] := (Option.some.inj h).symm
    rw [hrec]
    rfl
  | cons c cs ih =>
    intro idx off rec h k hk
    rw [List.length_cons] at hk
    rcases parseAux_cons_shape h with ⟨V, rec', off', rfl, hr⟩ | hr
    · have hne : k ≠ idx := by omega
      rw [lookup_cons_ne hne]
      exact ih (idx + 1) off' rec' hr k (by omega)
    · exact ih (idx + 1) off rec hr k (by omega)

lemma parseAux_padding (strTab data : List Byte) :
    ∀ (fmt : List Char) (idx off : Nat) (rec : Record),
      parseRecordAux strTab data fmt idx off = some rec →
      ∀ j, (fmt.get? j = some 'x' ∨ fmt.get? j = some 'X') →
        rec.lookup (idx + j) = some Value.none := by
  intro fmt
  induction fmt with
  | nil =>
    intro idx off rec h j hj
    rcases hj with hj | hj <;> simp at hj
  | cons c cs ih =>
    intro idx off rec h j hj
    match j with
    | 0 =>
      have hc : c = 'x' ∨ c = 'X' := by
        rcases hj with hj | hj
        · left
          simpa using hj
        · right
          simpa using hj
      rcases hc with rfl | rfl
      · rw [parseAux_x] at h
        obtain ⟨rec', hr, h3⟩ := Option.map_eq_some'.mp h
        rw [← h3, Nat.add_zero, lookup_cons_self]
      · rw [parseAux_X] at h
        obtain ⟨rec', hr, h3⟩ := Option.map_eq_some'.mp h
        rw [← h3, Nat.add_zero, lookup_cons_self]
    | j' + 1 =>
      have hj' : cs.get? j' = some 'x' ∨ cs.get? j' = some 'X' := by
        rcases hj with hj | hj
        · left
          simpa using hj
        · right
          simpa using hj
      have hstep : idx + 1 + j' = idx + (j' + 1) := by omega
      rcases parseAux_cons_shape h with ⟨V, rec', off', rfl, hr⟩ | hr
      · have hne : idx + (j' + 1) ≠ idx := by omega
        rw [lookup_cons_ne hne]
        have hres := ih (idx + 1) off' rec' hr j' hj'
        rwa [hstep] at hres
      · have hres := ih (idx + 1) off rec hr j' hj'
        rwa [hstep] at hres

/-- C10: in any record produced by `_parse_record`, a padding field
(`'x'`/`'X'`) holds the same absent marker (`None`) that `record.get`
returns for a field index outside the specification, so the filter pair
`(i, None)` matches the record in both situations — the query surface cannot
distinguish a padding field's value from an out-of-specification index. -/
theorem c10_padding_absent_identified (strTab row : List Byte) (fmt : List Char)
    (rec : Record) (i : Nat)
    (hparse : parseRecord strTab row fmt 0 = some rec)
    (hi : fmt.get? i = some 'x' ∨ fmt.get? i = some 'X' ∨ fmt.length ≤ i) :
    recGet rec i = Value.none ∧ matchesFilter [(i, Value.none)] rec = true := by
  have hp : parseRecordAux strTab row fmt 0 0 = some rec := hparse
  have hlk : rec.lookup i = some Value.none ∨ rec.lookup i = Option.none := by
    rcases hi with h | h | h
    · left
      have hres := parseAux_padding strTab row fmt 0 0 rec hp i (Or.inl h)
      rwa [Nat.zero_add] at hres
    · left
      have hres := parseAux_padding strTab row fmt 0 0 rec hp i (Or.inr h)
      rwa [Nat.zero_add] at hres
    · right
      exact parseAux_lookup_none strTab row fmt 0 0 rec hp i (by omega)
  have hg : recGet rec i = Value.none := by
    rcases hlk with h | h <;> simp [recGet, h]
  refine ⟨hg, ?_⟩
  simp [matchesFilter, hg]

/-- C10 witness: decoding format `"ix"` gives a record whose padding field 1
holds `None` and is matched by the filter pair `(1, None)`. -/
theorem c10_padding_absent_identified_witness :
    recGet [(0, Value.uint 7), (1, Value.none)] 1 = Value.none ∧
      matchesFilter [(1, Value.none)] [(0, Value.uint 7), (1, Value.none)] = true :=
  c10_padding_absent_identified [] [7, 0, 0, 0, 9, 9, 9, 9] ['i', 'x']
    [(0, Value.uint 7), (1, Value.none)] 1 (by decide) (Or.inl (by decide))

/-! ### Claims about `read()` and its validation -/

lemma width_unrecognized {c : Char} (h : recognizedChar c = false) :
    widthOf c = 0 := by
  have h1 : ¬(c = 'i') := by rintro rfl; simp [recognizedChar] at h
  have h2 : ¬(c = 'n') := by rintro rfl; simp [recognizedChar] at h
  have h3 : ¬(c = 'd') := by rintro rfl; simp [recognizedChar] at h
  have h4 : ¬(c = 'l') := by rintro rfl; simp [recognizedChar] at h
  have h5 : ¬(c = 'f') := by rintro rfl; simp [recognizedChar] at h
  have h6 : ¬(c = 's') := by rintro rfl; simp [recognizedChar] at h
  have h7 : ¬(c = 'b') := by rintro rfl; simp [recognizedChar] at h
  have h8 : ¬(c = 'x') := by rintro rfl; simp [recognizedChar] at h
  have h9 : ¬(c = 'X') := by rintro rfl; simp [recognizedChar] at h
  unfold widthOf
  rw [if_neg (by tauto), if_neg (by tauto)]

/-- C1 counterexample: `c1File` declares `record_size = 8` in its header
while the supplied format `"i"` has width sum 4, yet `open` loads the file
and returns its decoded record — `_validate_format` never compares the
header `record_size` with `get_record_size`. -/
theorem c1_counterexample :
    wdbcRead (some c1File) ['i'] = ReadResult.ok [[(0, Value.uint 42)]] [] ∧
      hdrU32 c1File 12 = 8 ∧ getRecordSize ['i'] = 4 := by
  decide

/-- C1 amended: the only format validation `open` performs is the
field-count comparison — a header `field_count` different from the
specification's length is rejected with the FormatMismatch `ValueError`, but
the header `record_size` is never compared against the sum of the
specification's field widths (4 bytes for each of i, n, d, l, f, s, x; 1
byte for b, X): a file whose `record_size` disagrees with that sum is loaded
normally when row parsing succeeds. -/
theorem c1_validation_is_field_count_only :
    (∀ (bytes : List Byte) (fmt : List Char), 20 ≤ bytes.length →
        bytes.take 4 = WDBC_SIGNATURE → fmt.length ≠ hdrU32 bytes 8 →
        wdbcRead (some bytes) fmt = ReadResult.fieldCountMismatch) ∧
      (hdrU32 c1File 12 ≠ getRecordSize ['i'] ∧
        ∃ recs st, wdbcRead (some c1File) ['i'] = ReadResult.ok recs st) := by
  constructor
  · intro bytes fmt h20 hsig hfc
    simp only [wdbcRead]
    rw [if_neg (by omega), if_neg (by simp [hsig]), if_pos hfc]
  · exact ⟨by decide, [[(0, Value.uint 42)]], [], by decide⟩

/-- C1 witness: a header declaring `field_count = 2` is rejected for the
one-field format `"i"`. -/
theorem c1_validation_is_field_count_only_witness :
    wdbcRead (some badFcFile) ['i'] = ReadResult.fieldCountMismatch :=
  c1_validation_is_field_count_only.1 badFcFile ['i'] (by decide) (by decide)
    (by decide)

/-- C2 counterexample: the format string `"?i"` contains the unrecognized
character `'?'`, yet no error is raised — `_parse_record` returns a record
with no entry at field index 0 and the cursor not advanced (field 1 is read
from byte offset 0), and `get_record_size` counts `'?'` as zero bytes. -/
theorem c2_counterexample :
    parseRecord [] [1, 0, 0, 0] ['?', 'i'] 0 = some [(1, Value.uint 1)] ∧
      getRecordSize ['?', 'i'] = 4 ∧
      ([(1, Value.uint 1)] : Record).lookup 0 = Option.none := by
  decide

/-- C2 amended: a format character outside `{i, n, d, l, f, s, b, x, X}` is
silently ignored rather than reported: the `if/elif` chain of
`_parse_record` falls through, storing no value at that field index and
leaving the byte cursor unadvanced, and `get_record_size` assigns it zero
width. -/
theorem c2_unrecognized_silently_skipped (strTab data : List Byte) (c : Char)
    (cs : List Char) (idx off : Nat) (h : recognizedChar c = false) :
    parseRecordAux strTab data (c :: cs) idx off =
        parseRecordAux strTab data cs (idx + 1) off ∧
      getRecordSize (c :: cs) = getRecordSize cs := by
  refine ⟨parseAux_skip strTab data cs idx off h, ?_⟩
  show widthOf c + getRecordSize cs = getRecordSize cs
  rw [width_unrecognized h, Nat.zero_add]

/-- C2 witness: the unrecognized character `'?'`. -/
theorem c2_unrecognized_silently_skipped_witness :
    parseRecordAux [] [] ['?'] 0 0 = parseRecordAux [] [] [] 1 0 ∧
      getRecordSize ['?'] = getRecordSize [] :=
  c2_unrecognized_silently_skipped [] [] '?' [] 0 0 (by decide)

/-- C3 counterexample: `c3SbsFile` is a 20-byte file whose header declares a
5-byte string block, so it holds fewer bytes than the header declares — yet
`open` succeeds with an empty record list and an (empty) truncated string
table instead of failing with a typed TruncatedFile error. -/
theorem c3_counterexample :
    wdbcRead (some c3SbsFile) [] = ReadResult.ok [] [] ∧
      c3SbsFile.length = 20 ∧ hdrU32 c3SbsFile 16 = 5 := by
  decide

/-- C3 amended: `open` raises the typed `FileNotFoundError` when the path
does not exist, but truncation is not reported as a typed eager error: a
file with fewer than 20 header bytes makes `read` return `False`, a data
section shorter than `record_count * record_size` surfaces as an untyped
struct error while parsing records, and a short string table is silently
accepted. -/
theorem c3_truncation_not_typed :
    (∀ fmt, wdbcRead Option.none fmt = ReadResult.fileNotFound) ∧
      (∀ (bytes : List Byte) (fmt : List Char), bytes.length < 20 →
        wdbcRead (some bytes) fmt = ReadResult.returnedFalse) ∧
      wdbcRead (some c3ShortFile) ['i'] = ReadResult.structError := by
  refine ⟨fun fmt => rfl, ?_, by decide⟩
  intro bytes fmt h
  simp only [wdbcRead]
  rw [if_pos h]

/-- C3 witness: a 3-byte file makes `read` return `False`. -/
theorem c3_truncation_not_typed_witness :
    wdbcRead (some [1, 2, 3]) [] = ReadResult.returnedFalse :=
  c3_truncation_not_typed.2.1 [1, 2, 3] [] (by decide)

end DbcQuery
